import Mathlib

/-!
# Verification of the delimited-record parser and bounded recursive file search

Shallow embedding of the algorithmic core of the repository:

* `parseWindowsCSV` and `getRunningProcesses` from the process-manager command
  (`src/unnamed/part_002`);
* `searchDirectory`, `searchFileSystem`, `searchWithEverything` and
  `searchFiles` from the file-search command (`src/unnamed/part_001`).

Modelling conventions:

* a JavaScript string is a `List Char` (`Str`);
* a Windows path is the list of its backslash-separated components
  (`FsPath`); `path.join(dir, name)` is `dir ++ [name]`;
* the filesystem is a pair of partial functions (`FS`): `readdir` returns
  `none` exactly when `fs.readdir` would throw, and `stat` returns `none`
  exactly when `fs.stat` would throw;
* subprocess output is a parameter: the result of `runWindowsCommand` for the
  accelerated search is an `Except Unit Str` (`.error` = the command threw).
-/

/-- A JavaScript string, modelled as its list of characters. -/
abbrev Str := List Char

/-- A Windows path, as its list of backslash-separated components. -/
abbrev FsPath := List Str

/-- JS `String.prototype.trim`: strip leading and trailing whitespace. -/
def trimStr (s : Str) : Str :=
  ((s.dropWhile Char.isWhitespace).reverse.dropWhile Char.isWhitespace).reverse

/-- Drop a single trailing carriage return, if present. -/
def stripCR (s : Str) : Str :=
  if s.getLast? = some '\r' then s.dropLast else s

/-- JS `split(/\r?\n/)`: split at each newline, a preceding carriage return
belonging to the separator. -/
def splitLines (s : Str) : List Str :=
  (s.splitOn '\n').map stripCR

/-- The scanner state of the character loop inside `parseWindowsCSV`
(`src/unnamed/part_002`, lines 80-95): accumulated fields, the field being
built, and the `inQuotes` flag. -/
structure ScanState where
  parts : List Str
  current : Str
  inQuotes : Bool
deriving DecidableEq, Repr

/-- One character of the quote-aware scan in `parseWindowsCSV`: a quote
toggles `inQuotes` (and is dropped), a comma outside quotes closes the current
field (trimmed), anything else is appended to the current field. -/
def csvStep (st : ScanState) (c : Char) : ScanState :=
  if c = '"' then { st with inQuotes := !st.inQuotes }
  else if c = ',' && !st.inQuotes then
    { parts := st.parts ++ [trimStr st.current], current := [], inQuotes := st.inQuotes }
  else { st with current := st.current ++ [c] }

/-- Run the scanner of `parseWindowsCSV` over a whole line. -/
def scanLine (line : Str) : ScanState :=
  line.foldl csvStep ⟨[], [], false⟩

/-- The per-line body of `parseWindowsCSV`: scan the line, then push the
final (trimmed) field. -/
def parseCSVLine (line : Str) : List Str :=
  (scanLine line).parts ++ [trimStr (scanLine line).current]

/-- `parseWindowsCSV` (`src/unnamed/part_002`, lines 74-100): trim, split
into lines, scan each line, and drop lines with no fields or an empty first
field. -/
def parseWindowsCSV (csvOutput : Str) : List (List Str) :=
  ((splitLines (trimStr csvOutput)).map parseCSVLine).filter
    (fun parts => !parts.isEmpty && !(parts.getD 0 []).isEmpty)

/-- A row of `tasklist /fo csv /nh` output (`WindowsProcess` in the source). -/
structure WindowsProcess where
  name : Str
  pid : Str
  sessionName : Str
  sessionNumber : Str
  memUsage : Str
  status : Str
deriving DecidableEq, Repr

/-- The row of `getRunningProcesses` built from one parsed CSV row. -/
def mkProcess (row : List Str) : WindowsProcess :=
  { name := row.getD 0 [], pid := row.getD 1 [], sessionName := row.getD 2 [],
    sessionNumber := row.getD 3 [], memUsage := row.getD 4 [],
    status := "Running".toList }

/-- The pure stage of `getRunningProcesses` (`src/unnamed/part_002`, lines
103-120): the listing command's output is the parameter; rows are parsed with
`parseWindowsCSV`, mapped to records, and records with an empty name or pid
are dropped. -/
def getRunningProcesses (output : Str) : List WindowsProcess :=
  ((parseWindowsCSV output).map mkProcess).filter
    (fun p => !p.name.isEmpty && !p.pid.isEmpty)

/-- During the scan of a line, does every comma occur outside quotes?
(`inQ` is the `inQuotes` flag at the start of the remaining characters.) -/
def quotedCommaFree : Bool → Str → Bool
  | _, [] => true
  | inQ, c :: cs =>
    if c = '"' then quotedCommaFree (!inQ) cs
    else if c = ',' && inQ then false
    else quotedCommaFree inQ cs

/-! ## Bounded recursive file search (`src/unnamed/part_001`) -/

/-- The result of a successful `fs.stat`. -/
structure Stats where
  size : Nat
  mtime : Nat
  isDir : Bool
deriving DecidableEq, Repr

/-- A directory entry from `fs.readdir(dir, { withFileTypes: true })`. -/
structure Dirent where
  name : Str
  isDir : Bool
  isFile : Bool
deriving DecidableEq, Repr

/-- The filesystem, as the outcomes of the two calls the search makes:
`readdir` is `none` when reading the directory throws, `stat` is `none` when
stat-ing the entry throws. -/
structure FS where
  readdir : FsPath → Option (List Dirent)
  stat : FsPath → Option Stats

/-- The `type` field of a `FileItem`: `"file" | "directory"`. -/
inductive FileKind
  | file
  | directory
deriving DecidableEq, Repr

/-- The `FileItem` record of the source. -/
structure FileItem where
  path : FsPath
  name : Str
  size : Nat
  modified : Nat
  type : FileKind
  extension : Option Str
  isHidden : Bool
deriving DecidableEq, Repr

/-- JS `hay.includes(needle)`: contiguous-substring test. -/
def strIncludes (needle : Str) : Str → Bool
  | [] => needle.isEmpty
  | c :: rest => needle.isPrefixOf (c :: rest) || strIncludes needle rest

/-- JS `name.startsWith('.')`. -/
def startsWithDot : Str → Bool
  | [] => false
  | c :: _ => c = '.'

/-- JS `String.prototype.toLowerCase`, characterwise. -/
def toLowerStr (s : Str) : Str :=
  s.map Char.toLower

/-- JS `path.extname` applied to a bare entry name: the suffix starting at the
last dot, empty when there is no dot or the only dot is the leading
character. -/
def extname (n : Str) : Str :=
  match n.reverse.findIdx? (fun c => c = '.') with
  | none => []
  | some i => if i + 1 = n.length then [] else n.drop (n.length - 1 - i)

/-- The record pushed by `searchDirectory` for a matching entry
(`src/unnamed/part_001`, lines 322-330). -/
def mkFileItem (fullPath : FsPath) (e : Dirent) (st : Stats) (isHidden : Bool) : FileItem :=
  { path := fullPath, name := e.name, size := st.size, modified := st.mtime,
    type := if e.isDir then .directory else .file,
    extension := if e.isFile then some (toLowerStr (extname e.name)) else none,
    isHidden := isHidden }

/-- The `for (const entry of entries)` loop of `searchDirectory`
(`src/unnamed/part_001`, lines 306-340).  `recurse` is the recursive call at
`depth + 1`, supplied by `searchDir`.  Per entry: stop at the result cap, skip
hidden entries unless included, skip excluded names, record a query match
(skipping it when `fs.stat` fails), and recurse into non-hidden
directories. -/
def searchEntries (fs : FS) (query : Str) (maxResults : Nat) (includeHidden : Bool)
    (excludePatterns : List Str) (recurse : FsPath → List FileItem → List FileItem)
    (dirPath : FsPath) : List Dirent → List FileItem → List FileItem
  | [], results => results
  | e :: rest, results =>
    if maxResults ≤ results.length then results
    else
      let fullPath := dirPath ++ [e.name]
      let isHidden := startsWithDot e.name
      if isHidden && !includeHidden then
        searchEntries fs query maxResults includeHidden excludePatterns recurse dirPath rest results
      else if excludePatterns.any (fun p => strIncludes p e.name) then
        searchEntries fs query maxResults includeHidden excludePatterns recurse dirPath rest results
      else
        let results1 :=
          if strIncludes query (toLowerStr e.name) then
            match fs.stat fullPath with
            | some st => results ++ [mkFileItem fullPath e st isHidden]
            | none => results
          else results
        let results2 := if e.isDir && !isHidden then recurse fullPath results1 else results1
        searchEntries fs query maxResults includeHidden excludePatterns recurse dirPath rest results2

/-- `searchDirectory`, with the `depth > 5` cutoff phrased as a decreasing
fuel (`fuel = 6 - depth`, so `fuel = 0` iff `depth > 5`): at fuel zero or at
the result cap return unchanged, on a `readdir` failure return unchanged,
otherwise run the entry loop with the recursive call at `fuel - 1`. -/
def searchDir (fs : FS) (query : Str) (maxResults : Nat) (includeHidden : Bool)
    (excludePatterns : List Str) : Nat → FsPath → List FileItem → List FileItem
  | 0, _, results => results
  | fuel + 1, dirPath, results =>
    if maxResults ≤ results.length then results
    else
      match fs.readdir dirPath with
      | none => results
      | some entries =>
        searchEntries fs query maxResults includeHidden excludePatterns
          (searchDir fs query maxResults includeHidden excludePatterns fuel) dirPath entries results

/-- `searchDirectory` (`src/unnamed/part_001`, lines 292-344) with the
source's parameter order; `depth` is translated to the remaining fuel
`6 - depth`. -/
def searchDirectory (fs : FS) (dirPath : FsPath) (query : Str) (results : List FileItem)
    (maxResults : Nat) (includeHidden : Bool) (excludePatterns : List Str)
    (depth : Nat) : List FileItem :=
  searchDir fs query maxResults includeHidden excludePatterns (6 - depth) dirPath results

/-- The `for (const searchPath of searchPaths)` loop of `searchFileSystem`
(`src/unnamed/part_001`, lines 280-287): search each root at depth 0,
breaking once the cap is reached.  (The per-root `try/catch` has no effect in
the model: `searchDirectory` already returns normally on every input, as its
body also catches every error.) -/
def searchRoots (fs : FS) (queryLower : Str) (maxResults : Nat) (includeHidden : Bool)
    (excludePatterns : List Str) : List FsPath → List FileItem → List FileItem
  | [], files => files
  | p :: rest, files =>
    let files1 := searchDirectory fs p queryLower files maxResults includeHidden excludePatterns 0
    if maxResults ≤ files1.length then files1
    else searchRoots fs queryLower maxResults includeHidden excludePatterns rest files1

/-- `searchFileSystem` (`src/unnamed/part_001`, lines 270-290): lowercase the
query, walk the roots in order, and return at most `maxResults` records. -/
def searchFileSystem (fs : FS) (query : Str) (searchPaths : List FsPath)
    (maxResults : Nat) (includeHidden : Bool) (excludePatterns : List Str) : List FileItem :=
  (searchRoots fs (toLowerStr query) maxResults includeHidden excludePatterns searchPaths []).take
    maxResults

/-! ## Accelerated (Everything) search path (`src/unnamed/part_001`) -/

/-- `isDirectory` (`src/unnamed/part_001`, lines 261-268): `fs.stat`, with
`false` when stat-ing throws. -/
def isDirectory (fs : FS) (p : FsPath) : Bool :=
  match fs.stat p with
  | some st => st.isDir
  | none => false

/-- `parseInt(s) || 0` on the non-negative sizes `es.exe` emits: the leading
decimal digits after optional whitespace, `0` when there are none. -/
def parseIntOr0 (s : Str) : Nat :=
  ((s.dropWhile Char.isWhitespace).takeWhile Char.isDigit).foldl
    (fun acc c => acc * 10 + (c.toNat - 48)) 0

/-- A Windows path string split into its backslash-separated components. -/
def splitPath (s : Str) : FsPath :=
  s.splitOn '\\'

/-- JS `path.basename` of a path string: its last backslash component. -/
def basename (s : Str) : Str :=
  (splitPath s).getLast?.getD []

/-- `searchWithEverything` (`src/unnamed/part_001`, lines 227-259).
`esResult` is the outcome of `runWindowsCommand` for the `es.exe` invocation;
`parseDate` models `new Date(...)` on the third tab field.  Every error path
of the source is caught inside this function and yields `[]`; on success,
each non-blank output line with at least three tab-separated fields becomes a
record.  Note that neither `includeHidden` nor `excludePatterns` is consulted
here. -/
def searchWithEverything (fs : FS) (parseDate : Str → Nat) (esResult : Except Unit Str)
    (_query : Str) (_maxResults : Nat) : List FileItem :=
  match esResult with
  | .error _ => []
  | .ok output =>
    let lines := (splitLines output).filter (fun l => !(trimStr l).isEmpty)
    lines.foldl (fun files line =>
      let parts := line.splitOn '\t'
      if 3 ≤ parts.length then
        let comps := splitPath (parts.getD 0 [])
        let base := comps.getLast?.getD []
        files ++ [{ path := comps, name := base,
                    size := parseIntOr0 (parts.getD 1 []),
                    modified := parseDate (parts.getD 2 []),
                    type := if isDirectory fs comps then .directory else .file,
                    extension := some (toLowerStr (extname base)),
                    isHidden := startsWithDot base }]
      else files) []

/-- `searchFiles` (`src/unnamed/part_001`, lines 420-448), the pure core: an
empty (after trimming) query short-circuits; with `useEverything` set the
accelerated path is taken, otherwise the recursive walk.  The source wraps
the accelerated call in `try/catch` with a recursive-walk fallback, but
`searchWithEverything` returns normally on every input — its whole body sits
inside its own `try/catch` that returns `[]` — so that fallback branch is
unreachable and does not appear in the model. -/
def searchFiles (fs : FS) (parseDate : Str → Nat) (esResult : Except Unit Str)
    (useEverything : Bool) (query : Str) (searchPaths : List FsPath)
    (maxResults : Nat) (includeHidden : Bool) (excludePatterns : List Str) : List FileItem :=
  if (trimStr query).isEmpty then []
  else if useEverything then searchWithEverything fs parseDate esResult query maxResults
  else searchFileSystem fs query searchPaths maxResults includeHidden excludePatterns

/-! ## Concrete filesystems used as test inputs -/

/-- A one-component root directory `r`. -/
def rootA : FsPath := [['r']]

/-- A second root, `b`. -/
def rootB : FsPath := [['b']]

/-- A non-hidden subdirectory entry named `d`. -/
def dEnt : Dirent := ⟨['d'], true, false⟩

/-- A non-hidden file entry named `q`. -/
def qEnt : Dirent := ⟨['q'], false, true⟩

/-- A hidden directory entry named `.h`. -/
def hEnt : Dirent := ⟨['.', 'h'], true, false⟩

/-- A non-hidden file entry named `h`. -/
def hFile : Dirent := ⟨['h'], false, true⟩

/-- A chain `r/d/d/d/d/d/q`: directories `d` at depths 1-5 below the root and
the file `q` at depth 6. -/
def fs6 : FS where
  readdir p := if p.length = 6 then some [qEnt] else if p.length ≤ 5 then some [dEnt] else none
  stat _ := some ⟨0, 0, false⟩

/-- A single visible file `q` directly under the root `r`; every other
directory (in particular the root `b`) is unreadable. -/
def fs1 : FS where
  readdir p := if p = rootA then some [qEnt] else none
  stat _ := some ⟨0, 0, false⟩

/-- A hidden directory `.h` under the root `r`, containing the file `h`;
both names match the query `h`. -/
def fsH : FS where
  readdir p :=
    if p = rootA then some [hEnt]
    else if p = rootA ++ [['.', 'h']] then some [hFile]
    else none
  stat _ := some ⟨0, 0, true⟩

/-- The record the recursive walk returns for `q` under `r` in `fs1`. -/
def item1 : FileItem :=
  ⟨[['r'], ['q']], ['q'], 0, 0, .file, some [], false⟩

/-- The record the walk on `fsH` returns for the hidden directory `.h`. -/
def itemH : FileItem :=
  ⟨[['r'], ['.', 'h']], ['.', 'h'], 0, 0, .directory, none, true⟩

/-- The record the walk on `fs6` returns for `q` at depth 6. -/
def item6 : FileItem :=
  ⟨[['r'], ['d'], ['d'], ['d'], ['d'], ['d'], ['q']], ['q'], 0, 0, .file, some [], false⟩

/-! ## Scanner lemmas for `parseWindowsCSV` -/

theorem csvStep_quote (st : ScanState) :
    csvStep st '"' = { st with inQuotes := !st.inQuotes } := by
  simp [csvStep]

theorem csvStep_inQuotes_of_ne (st : ScanState) (c : Char) (h : c ≠ '"') :
    (csvStep st c).inQuotes = st.inQuotes := by
  rw [csvStep]
  simp only [h, if_false]
  split <;> rfl

theorem csvStep_parts_of_ne (st : ScanState) (c : Char) (hq : c ≠ '"')
    (hc : c = ',' → st.inQuotes = true) : (csvStep st c).parts = st.parts := by
  rw [csvStep]
  simp only [hq, if_false]
  split
  · next h =>
    rw [Bool.and_eq_true, Bool.not_eq_true'] at h
    obtain ⟨h1, h2⟩ := h
    rw [decide_eq_true_iff] at h1
    rw [hc h1] at h2
    cases h2
  · rfl

/-- The `inQuotes` flag after a scan is the parity of the quote count. -/
theorem scan_inQuotes_parity (line : Str) :
    ∀ st : ScanState,
      (line.foldl csvStep st).inQuotes = (st.inQuotes ^^ decide (line.count '"' % 2 = 1)) := by
  induction line with
  | nil => intro st; simp
  | cons c cs ih =>
    intro st
    rw [List.foldl_cons, ih]
    by_cases h : c = '"'
    · subst h
      rw [csvStep_quote]
      have hcount : List.count '"' ('"' :: cs) = List.count '"' cs + 1 := by
        simp [List.count_cons]
      have hpar : ((List.count '"' cs + 1) % 2 = 1) ↔ ¬(List.count '"' cs % 2 = 1) := by omega
      rw [hcount]
      by_cases hp : List.count '"' cs % 2 = 1 <;>
        cases hst : st.inQuotes <;> simp [hp, hpar]
    · have hcount : List.count '"' (c :: cs) = List.count '"' cs := by
        simp [List.count_cons, h]
      rw [csvStep_inQuotes_of_ne st c h, hcount]

/-- Scanning quote-free text while inside quotes only extends the current
field: no field boundaries are produced, commas included. -/
theorem scan_inside_quotes (rest : Str) :
    ∀ st : ScanState, '"' ∉ rest → st.inQuotes = true →
      rest.foldl csvStep st = ⟨st.parts, st.current ++ rest, true⟩ := by
  induction rest with
  | nil => intro st _ hin; cases st; simp_all
  | cons c cs ih =>
    intro st hmem hin
    have hq : c ≠ '"' := fun hc => hmem (hc ▸ List.mem_cons_self c cs)
    have hcs : '"' ∉ cs := fun hc => hmem (List.mem_cons_of_mem c hc)
    have hstep : csvStep st c = ⟨st.parts, st.current ++ [c], st.inQuotes⟩ := by
      rw [csvStep]
      simp only [hq, if_false]
      split
      · next h =>
        rw [Bool.and_eq_true, Bool.not_eq_true'] at h
        rw [hin] at h
        exact absurd h.2 (by simp)
      · rfl
    rw [List.foldl_cons, hstep, ih ⟨st.parts, st.current ++ [c], st.inQuotes⟩ hcs hin]
    simp

/-- When every comma of the remaining text is outside quotes, each comma adds
exactly one field: the scan ends with `count ','` more fields than it
started with. -/
theorem scan_parts_count (line : Str) :
    ∀ st : ScanState, quotedCommaFree st.inQuotes line = true →
      ((line.foldl csvStep st).parts).length = st.parts.length + line.count ',' := by
  induction line with
  | nil => intro st _; simp
  | cons c cs ih =>
    intro st hfree
    by_cases hq : c = '"'
    · subst hq
      rw [quotedCommaFree] at hfree
      simp only [if_pos rfl] at hfree
      rw [List.foldl_cons, csvStep_quote]
      have := ih { st with inQuotes := !st.inQuotes } hfree
      simp only at this
      rw [this]
      simp [List.count_cons]
    · by_cases hc : c = ','
      · subst hc
        rw [quotedCommaFree] at hfree
        have hin : st.inQuotes = false := by
          cases hin : st.inQuotes
          · rfl
          · rw [hin] at hfree; simp at hfree
        rw [hin] at hfree
        simp only [Bool.and_false, if_neg hq] at hfree
        norm_num at hfree
        have hstep : csvStep st ',' =
            ⟨st.parts ++ [trimStr st.current], [], false⟩ := by
          simp [csvStep, hin]
        rw [List.foldl_cons, hstep]
        have := ih ⟨st.parts ++ [trimStr st.current], [], false⟩ (by simpa using hfree)
        simp only at this
        rw [this]
        simp [List.count_cons]
        omega
      · rw [quotedCommaFree] at hfree
        simp only [if_neg hq] at hfree
        have hccond : (decide (c = ',') && st.inQuotes) = false := by
          simp [hc]
        rw [hccond, if_neg (by simp)] at hfree
        have hstep : csvStep st c = ⟨st.parts, st.current ++ [c], st.inQuotes⟩ := by
          rw [csvStep]
          simp only [hq, if_false]
          split
          · next h =>
            rw [Bool.and_eq_true] at h
            rw [decide_eq_true_iff] at h
            exact absurd h.1 hc
          · rfl
        rw [List.foldl_cons, hstep]
        have := ih ⟨st.parts, st.current ++ [c], st.inQuotes⟩ hfree
        simp only at this
        rw [this]
        simp [List.count_cons, hc]

/-! ## Claims about the parser -/

/-- C5: the single line `"a,b",c,d` parses to exactly one row
`["a,b", "c", "d"]` — the quoted comma is not a separator and the quote
characters are stripped. -/
theorem C5_quoted_comma_row :
    parseWindowsCSV ['"', 'a', ',', 'b', '"', ',', 'c', ',', 'd'] =
      [[['a', ',', 'b'], ['c'], ['d']]] := by decide

/-- C6: a line with a trailing unmatched quote (balanced prefix `p`, then a
quote, then quote-free text `rest`) leaves `inQuotes` true for the remainder
of the line, so the commas of `rest` create no field boundary: the line
yields exactly as many fields as `p` alone, `rest` being absorbed into the
final field. -/
theorem C6_trailing_quote_stays_open (p rest : Str)
    (hp : p.count '"' % 2 = 0) (hrest : '"' ∉ rest) :
    (scanLine (p ++ '"' :: rest)).inQuotes = true ∧
      parseCSVLine (p ++ '"' :: rest) =
        (scanLine p).parts ++ [trimStr ((scanLine p).current ++ rest)] ∧
      (parseCSVLine (p ++ '"' :: rest)).length = (parseCSVLine p).length := by
  have h0 : (scanLine p).inQuotes = false := by
    rw [scanLine, scan_inQuotes_parity]
    simp only [Bool.false_xor]
    simp
    omega
  have hq : csvStep (scanLine p) '"' = ⟨(scanLine p).parts, (scanLine p).current, true⟩ := by
    rw [csvStep_quote, h0]
    rfl
  have hfull : scanLine (p ++ '"' :: rest) =
      ⟨(scanLine p).parts, (scanLine p).current ++ rest, true⟩ := by
    rw [scanLine, List.foldl_append, List.foldl_cons, ← scanLine, hq,
      scan_inside_quotes rest _ hrest rfl]
  refine ⟨by rw [hfull], by rw [parseCSVLine, hfull], ?_⟩
  rw [parseCSVLine, parseCSVLine, hfull]
  simp

/-- Witness for C6 at `p = "a"`, `rest = ",b,c"`: the commas after the
unmatched quote produce a single field. -/
theorem C6_witness :
    (['a'] : Str).count '"' % 2 = 0 ∧ '"' ∉ ([',', 'b', ',', 'c'] : Str) ∧
      (scanLine (['a'] ++ '"' :: [',', 'b', ',', 'c'])).inQuotes = true ∧
      parseCSVLine (['a'] ++ '"' :: [',', 'b', ',', 'c']) =
        (scanLine ['a']).parts ++ [trimStr ((scanLine ['a']).current ++ [',', 'b', ',', 'c'])] ∧
      (parseCSVLine (['a'] ++ '"' :: [',', 'b', ',', 'c'])).length =
        (parseCSVLine ['a']).length :=
  ⟨by decide, by decide,
    C6_trailing_quote_stays_open ['a'] [',', 'b', ',', 'c'] (by decide) (by decide)⟩

/-- C7 fails as stated: the input consisting of the single line `,a` has
balanced quoting (no quotes) and no comma inside quotes, and contains one
comma, so the claim demands one row of two fields — but its first field is
empty, so `parseWindowsCSV` drops the whole line and yields no row at all. -/
theorem C7_counterexample :
    ([',', 'a'] : Str).count '"' % 2 = 0 ∧
      quotedCommaFree false [',', 'a'] = true ∧
      splitLines (trimStr [',', 'a']) = [[',', 'a']] ∧
      parseWindowsCSV [',', 'a'] = [] := by decide

/-- C7 (amended): on input with balanced quoting and no commas inside quoted
spans, every row the parser yields comes from a line of the input and has
`count ',' + 1` fields; lines whose first (trimmed) field is empty are
dropped and yield no row. -/
theorem C7_field_count (raw : Str)
    (_hbal : ∀ line ∈ splitLines (trimStr raw), line.count '"' % 2 = 0)
    (hfree : ∀ line ∈ splitLines (trimStr raw), quotedCommaFree false line = true) :
    ∀ row ∈ parseWindowsCSV raw, ∃ line ∈ splitLines (trimStr raw),
      row = parseCSVLine line ∧ row.length = line.count ',' + 1 := by
  intro row hrow
  rw [parseWindowsCSV] at hrow
  obtain ⟨hrow1, _⟩ := List.mem_filter.mp hrow
  obtain ⟨line, hline, rfl⟩ := List.mem_map.mp hrow1
  refine ⟨line, hline, rfl, ?_⟩
  have hcount := scan_parts_count line ⟨[], [], false⟩ (hfree line hline)
  simp only [List.length_nil] at hcount
  rw [parseCSVLine, scanLine]
  rw [List.length_append, hcount]
  simp

/-- Witness for C7 at the two-line input `a,b` / `c`: the first row has two
fields (one comma) and is reached by the amended theorem. -/
theorem C7_witness :
    (∀ line ∈ splitLines (trimStr ['a', ',', 'b', '\n', 'c']), line.count '"' % 2 = 0) ∧
      (∀ line ∈ splitLines (trimStr ['a', ',', 'b', '\n', 'c']),
        quotedCommaFree false line = true) ∧
      [['a'], ['b']] ∈ parseWindowsCSV ['a', ',', 'b', '\n', 'c'] ∧
      ∃ line ∈ splitLines (trimStr ['a', ',', 'b', '\n', 'c']),
        ([['a'], ['b']] : List Str) = parseCSVLine line ∧
          ([['a'], ['b']] : List Str).length = line.count ',' + 1 :=
  ⟨by decide, by decide, by decide,
    C7_field_count ['a', ',', 'b', '\n', 'c'] (by decide) (by decide) [['a'], ['b']] (by decide)⟩

/-- C8: `getRunningProcesses` keeps exactly the parsed rows whose name and
pid fields are present and non-empty, drops the others, and maps the kept
rows to records in their original order. -/
theorem C8_drops_incomplete_rows (output : Str) :
    getRunningProcesses output =
      ((parseWindowsCSV output).filter
        (fun row => !(row.getD 0 []).isEmpty && !(row.getD 1 []).isEmpty)).map mkProcess := by
  rw [getRunningProcesses, List.filter_map]
  rfl

/-! ## Soundness of the bounded walk

`WalkItem includeHidden fuel dirPath item` collects what the traversal
guarantees about any record it adds while visiting `dirPath` with `fuel`
levels of recursion left: the record's path extends `dirPath` by at most
`fuel` components, every intermediate component is a non-hidden directory
name, and a hidden final component is only possible when `includeHidden` is
set. -/

/-- What `searchDir fs _ _ includeHidden _ fuel dirPath` guarantees about
each record it adds. -/
def WalkItem (includeHidden : Bool) (fuel : Nat) (dirPath : FsPath) (item : FileItem) : Prop :=
  ∃ comps final, item.path = dirPath ++ comps ++ [final] ∧ item.name = final ∧
    comps.length + 1 ≤ fuel ∧ (∀ c ∈ comps, startsWithDot c = false) ∧
    (startsWithDot final = true → includeHidden = true)

theorem WalkItem.lift (includeHidden : Bool) (fuel : Nat) (dirPath : FsPath) (e : Str)
    (item : FileItem) (he : startsWithDot e = false)
    (h : WalkItem includeHidden fuel (dirPath ++ [e]) item) :
    WalkItem includeHidden (fuel + 1) dirPath item := by
  obtain ⟨comps, final, hpath, hname, hlen, hcomps, hhid⟩ := h
  refine ⟨e :: comps, final, ?_, hname, ?_, ?_, hhid⟩
  · rw [hpath]; simp
  · simp only [List.length_cons]; omega
  · intro c hc
    rcases List.mem_cons.mp hc with hc | hc
    · rw [hc]; exact he
    · exact hcomps c hc

/-- The entry loop only appends records, and each appended record satisfies
`WalkItem` at one more level of fuel than its recursion argument. -/
theorem searchEntries_spec (fs : FS) (query : Str) (maxResults : Nat) (includeHidden : Bool)
    (excludePatterns : List Str) (recurse : FsPath → List FileItem → List FileItem) (k : Nat)
    (hrec : ∀ p res it, it ∈ recurse p res → it ∈ res ∨ WalkItem includeHidden k p it)
    (dirPath : FsPath) :
    ∀ (entries : List Dirent) (results : List FileItem) (it : FileItem),
      it ∈ searchEntries fs query maxResults includeHidden excludePatterns recurse dirPath
        entries results →
      it ∈ results ∨ WalkItem includeHidden (k + 1) dirPath it := by
  intro entries
  induction entries with
  | nil =>
    intro results it h
    rw [searchEntries] at h
    exact Or.inl h
  | cons e rest ih =>
    intro results it h
    rw [searchEntries] at h
    split at h
    · exact Or.inl h
    · simp only at h
      split at h
      · exact ih results it h
      · next hhidden =>
        split at h
        · exact ih results it h
        · -- the entry is processed: match push, then optional recursion
          rcases ih _ it h with hmem | hwalk
          · -- `it` was already present before the tail of the loop ran
            -- analyse the optional recursion step
            have hmem2 : it ∈ (if strIncludes query (toLowerStr e.name) then
                match fs.stat (dirPath ++ [e.name]) with
                | some st => results ++ [mkFileItem (dirPath ++ [e.name]) e st
                    (startsWithDot e.name)]
                | none => results
              else results) ∨
                (e.isDir && !startsWithDot e.name) = true ∧
                  WalkItem includeHidden k (dirPath ++ [e.name]) it := by
              split at hmem
              · next hdir =>
                rcases hrec _ _ it hmem with h1 | h1
                · exact Or.inl h1
                · exact Or.inr ⟨hdir, h1⟩
              · exact Or.inl hmem
            rcases hmem2 with hmem2 | ⟨hdir, hwalk⟩
            · -- analyse the optional push step
              split at hmem2
              · next hmatch =>
                split at hmem2
                · rcases List.mem_append.mp hmem2 with h1 | h1
                  · exact Or.inl h1
                  · -- `it` is the record pushed for this entry
                    rw [List.mem_singleton] at h1
                    subst h1
                    refine Or.inr ⟨[], e.name, by simp [mkFileItem], by simp [mkFileItem],
                      by simp only [List.length_nil]; omega, by simp, ?_⟩
                    intro hhid
                    by_contra hinc
                    rw [Bool.not_eq_true] at hinc
                    rw [hhid, hinc] at hhidden
                    simp at hhidden
                · exact Or.inl hmem2
              · exact Or.inl hmem2
            · -- `it` came from the recursive call into a non-hidden directory
              rw [Bool.and_eq_true, Bool.not_eq_true'] at hdir
              exact Or.inr (WalkItem.lift includeHidden k dirPath e.name it hdir.2 hwalk)
          · exact Or.inr hwalk

/-- Soundness of `searchDir`: every returned record was already present or
satisfies `WalkItem` for the given fuel. -/
theorem searchDir_spec (fs : FS) (query : Str) (maxResults : Nat) (includeHidden : Bool)
    (excludePatterns : List Str) :
    ∀ (fuel : Nat) (dirPath : FsPath) (results : List FileItem) (it : FileItem),
      it ∈ searchDir fs query maxResults includeHidden excludePatterns fuel dirPath results →
      it ∈ results ∨ WalkItem includeHidden fuel dirPath it := by
  intro fuel
  induction fuel with
  | zero =>
    intro dirPath results it h
    rw [searchDir] at h
    exact Or.inl h
  | succ k ih =>
    intro dirPath results it h
    rw [searchDir] at h
    split at h
    · exact Or.inl h
    · split at h
      · exact Or.inl h
      · exact searchEntries_spec fs query maxResults includeHidden excludePatterns
          _ k (fun p res it' h' => ih p res it' h') dirPath _ results it h

/-- Soundness of the root loop: every returned record was already present or
satisfies `WalkItem` with fuel 6 below one of the roots. -/
theorem searchRoots_spec (fs : FS) (queryLower : Str) (maxResults : Nat) (includeHidden : Bool)
    (excludePatterns : List Str) :
    ∀ (roots : List FsPath) (files : List FileItem) (it : FileItem),
      it ∈ searchRoots fs queryLower maxResults includeHidden excludePatterns roots files →
      it ∈ files ∨ ∃ r ∈ roots, WalkItem includeHidden 6 r it := by
  intro roots
  induction roots with
  | nil =>
    intro files it h
    rw [searchRoots] at h
    exact Or.inl h
  | cons r rest ih =>
    intro files it h
    rw [searchRoots] at h
    have hstep : ∀ it', it' ∈ searchDirectory fs r queryLower files maxResults includeHidden
        excludePatterns 0 → it' ∈ files ∨ ∃ r' ∈ r :: rest, WalkItem includeHidden 6 r' it' := by
      intro it' h'
      rw [searchDirectory] at h'
      rcases searchDir_spec fs queryLower maxResults includeHidden excludePatterns
        (6 - 0) r files it' h' with h1 | h1
      · exact Or.inl h1
      · exact Or.inr ⟨r, List.mem_cons_self r rest, h1⟩
    split at h
    · exact hstep it h
    · rcases ih _ it h with h1 | h1
      · exact hstep it h1
      · obtain ⟨r', hr', hw⟩ := h1
        exact Or.inr ⟨r', List.mem_cons_of_mem r hr', hw⟩

/-- Soundness of `searchFileSystem`: every returned record satisfies
`WalkItem` with fuel 6 below one of the search roots. -/
theorem searchFileSystem_spec (fs : FS) (query : Str) (searchPaths : List FsPath)
    (maxResults : Nat) (includeHidden : Bool) (excludePatterns : List Str) (it : FileItem)
    (h : it ∈ searchFileSystem fs query searchPaths maxResults includeHidden excludePatterns) :
    ∃ r ∈ searchPaths, WalkItem includeHidden 6 r it := by
  rw [searchFileSystem] at h
  have h1 := List.mem_of_mem_take h
  rcases searchRoots_spec fs (toLowerStr query) maxResults includeHidden excludePatterns
    searchPaths [] it h1 with h2 | h2
  · cases h2
  · exact h2

/-! ## Locality of directory-read failures -/

/-- A directory whose `readdir` fails contributes nothing: the walk returns
its accumulator unchanged. -/
theorem searchDir_of_readdir_none (fs : FS) (query : Str) (maxResults : Nat)
    (includeHidden : Bool) (excludePatterns : List Str) (fuel : Nat) (dirPath : FsPath)
    (results : List FileItem) (h : fs.readdir dirPath = none) :
    searchDir fs query maxResults includeHidden excludePatterns fuel dirPath results =
      results := by
  cases fuel with
  | zero => rw [searchDir]
  | succ k =>
    rw [searchDir]
    split
    · rfl
    · rw [h]

/-- Once the accumulator has reached the cap, the walk adds nothing. -/
theorem searchDir_of_full (fs : FS) (query : Str) (maxResults : Nat) (includeHidden : Bool)
    (excludePatterns : List Str) (fuel : Nat) (dirPath : FsPath) (results : List FileItem)
    (h : maxResults ≤ results.length) :
    searchDir fs query maxResults includeHidden excludePatterns fuel dirPath results =
      results := by
  cases fuel with
  | zero => rw [searchDir]
  | succ k => rw [searchDir, if_pos h]

/-- Once the accumulator has reached the cap, the root loop adds nothing. -/
theorem searchRoots_of_full (fs : FS) (queryLower : Str) (maxResults : Nat)
    (includeHidden : Bool) (excludePatterns : List Str) (roots : List FsPath)
    (files : List FileItem) (h : maxResults ≤ files.length) :
    searchRoots fs queryLower maxResults includeHidden excludePatterns roots files = files := by
  induction roots with
  | nil => rw [searchRoots]
  | cons r rest ih =>
    have h1 : searchDirectory fs r queryLower files maxResults includeHidden excludePatterns 0 =
        files := by
      rw [searchDirectory]
      exact searchDir_of_full fs queryLower maxResults includeHidden excludePatterns _ r files h
    simp only [searchRoots, h1, if_pos h]

/-- Skipping an unreadable root changes nothing about the loop's result. -/
theorem searchRoots_skip_unreadable (fs : FS) (queryLower : Str) (maxResults : Nat)
    (includeHidden : Bool) (excludePatterns : List Str) (r : FsPath) (roots₂ : List FsPath)
    (h : fs.readdir r = none) :
    ∀ (roots₁ : List FsPath) (files : List FileItem),
      searchRoots fs queryLower maxResults includeHidden excludePatterns
          (roots₁ ++ r :: roots₂) files =
        searchRoots fs queryLower maxResults includeHidden excludePatterns
          (roots₁ ++ roots₂) files := by
  intro roots₁
  induction roots₁ with
  | nil =>
    intro files
    have h1 : searchDirectory fs r queryLower files maxResults includeHidden excludePatterns 0 =
        files := by
      rw [searchDirectory]
      exact searchDir_of_readdir_none fs queryLower maxResults includeHidden excludePatterns
        _ r files h
    rw [List.nil_append, List.nil_append]
    simp only [searchRoots, h1]
    by_cases hfull : maxResults ≤ files.length
    · rw [if_pos hfull,
        searchRoots_of_full fs queryLower maxResults includeHidden excludePatterns roots₂
          files hfull]
    · rw [if_neg hfull]
  | cons a roots₁ ih =>
    intro files
    rw [List.cons_append, List.cons_append]
    simp only [searchRoots]
    by_cases hfull : maxResults ≤
        (searchDirectory fs a queryLower files maxResults includeHidden excludePatterns 0).length
    · rw [if_pos hfull, if_pos hfull]
    · rw [if_neg hfull, if_neg hfull, ih]

/-! ## Claims about the search -/

/-- C1 fails as stated: on the chain `r/d/d/d/d/d/q` the file `q` sits at
depth 6 below the root (six components below `r`), and the recursive search
returns it — the guard `depth > 5` still lets the depth-5 directory list its
depth-6 children. -/
theorem C1_counterexample :
    searchFileSystem fs6 ['q'] [rootA] 10 false [] = [item6] ∧
      item6.path = rootA ++ [['d'], ['d'], ['d'], ['d'], ['d'], ['q']] := by decide

/-- C1 (amended): the traversal is capped at depth 6, not 5: every record
returned by the recursive search lies between depth 1 and depth 6 below one
of the roots (and depth-6 matches are reachable, per the counterexample). -/
theorem C1_depth_cap (fs : FS) (query : Str) (searchPaths : List FsPath) (maxResults : Nat)
    (includeHidden : Bool) (excludePatterns : List Str) (it : FileItem)
    (h : it ∈ searchFileSystem fs query searchPaths maxResults includeHidden excludePatterns) :
    ∃ r ∈ searchPaths, ∃ below, it.path = r ++ below ∧ 1 ≤ below.length ∧ below.length ≤ 6 := by
  obtain ⟨r, hr, comps, final, hpath, _, hlen, _, _⟩ :=
    searchFileSystem_spec fs query searchPaths maxResults includeHidden excludePatterns it h
  refine ⟨r, hr, comps ++ [final], ?_, ?_, ?_⟩
  · rw [hpath, List.append_assoc]
  · simp
  · simp only [List.length_append, List.length_singleton]
    omega

/-- Witness for the amended C1 at the depth-6 chain `fs6`. -/
theorem C1_witness :
    item6 ∈ searchFileSystem fs6 ['q'] [rootA] 10 false [] ∧
      ∃ r ∈ [rootA], ∃ below, item6.path = r ++ below ∧ 1 ≤ below.length ∧
        below.length ≤ 6 :=
  ⟨by decide, C1_depth_cap fs6 ['q'] [rootA] 10 false [] item6 (by decide)⟩

/-- C2 fails on the code: when the `es.exe` invocation fails,
`searchWithEverything` swallows the error and returns `[]`, so `searchFiles`
with `useEverything` returns no records even though the recursive walk would
have found `q` — the fallback branch in the source is unreachable. -/
theorem C2_no_fallback_on_failure :
    searchFiles fs1 (fun _ => 0) (Except.error ()) true ['q'] [rootA] 10 false [] = [] ∧
      searchFileSystem fs1 ['q'] [rootA] 10 false [] = [item1] := by decide

/-- C3: the recursive search never returns more than `maxResults` records,
whatever the filesystem, roots, query and filters. -/
theorem C3_capped_at_max_results (fs : FS) (query : Str) (searchPaths : List FsPath)
    (maxResults : Nat) (includeHidden : Bool) (excludePatterns : List Str) :
    (searchFileSystem fs query searchPaths maxResults includeHidden excludePatterns).length ≤
      maxResults := by
  rw [searchFileSystem, List.length_take]
  exact min_le_left _ _

/-- C4 fails as stated: with `includeHidden = false` and the accelerated path
enabled, an `es.exe` output line for `.hid` becomes a returned record whose
name starts with the hidden-file marker — `searchWithEverything` never
consults `includeHidden`. -/
theorem C4_counterexample :
    (searchFiles fs1 (fun _ => 0) (Except.ok ['.', 'h', 'i', 'd', '\t', '3', '\t', 'z'])
        true ['h'] [rootA] 10 false []).map FileItem.name = [['.', 'h', 'i', 'd']] ∧
      startsWithDot ['.', 'h', 'i', 'd'] = true := by decide

/-- C4 (amended): the recursive filesystem walk with `includeHidden = false`
never returns a record whose name starts with the hidden-file marker, however
deeply nested; only the accelerated path can. -/
theorem C4_hidden_never_returned_by_walk (fs : FS) (query : Str) (searchPaths : List FsPath)
    (maxResults : Nat) (excludePatterns : List Str) (it : FileItem)
    (h : it ∈ searchFileSystem fs query searchPaths maxResults false excludePatterns) :
    startsWithDot it.name = false := by
  obtain ⟨r, hr, comps, final, hpath, hname, hlen, hcomps, hhid⟩ :=
    searchFileSystem_spec fs query searchPaths maxResults false excludePatterns it h
  rw [hname]
  cases hdot : startsWithDot final
  · rfl
  · exact absurd (hhid hdot) (by simp)

/-- Witness for the amended C4 at `fs1`. -/
theorem C4_witness :
    item1 ∈ searchFileSystem fs1 ['q'] [rootA] 10 false [] ∧
      startsWithDot item1.name = false :=
  ⟨by decide, C4_hidden_never_returned_by_walk fs1 ['q'] [rootA] 10 [] item1 (by decide)⟩

/-- C9: a root whose directory read fails contributes nothing and aborts
nothing: the search over the surrounding roots returns exactly what it would
return without that root, so results gathered before and after it are kept. -/
theorem C9_unreadable_directory_is_local (fs : FS) (query : Str) (roots₁ roots₂ : List FsPath)
    (r : FsPath) (maxResults : Nat) (includeHidden : Bool) (excludePatterns : List Str)
    (h : fs.readdir r = none) :
    searchFileSystem fs query (roots₁ ++ r :: roots₂) maxResults includeHidden excludePatterns =
      searchFileSystem fs query (roots₁ ++ roots₂) maxResults includeHidden excludePatterns := by
  rw [searchFileSystem, searchFileSystem,
    searchRoots_skip_unreadable fs (toLowerStr query) maxResults includeHidden excludePatterns
      r roots₂ h roots₁ []]

/-- Witness for C9: root `b` is unreadable in `fs1`, and searching
`[b, r]` returns exactly the search of `[r]` (which finds `q`). -/
theorem C9_witness :
    fs1.readdir rootB = none ∧
      searchFileSystem fs1 ['q'] ([] ++ rootB :: [rootA]) 10 false [] =
        searchFileSystem fs1 ['q'] ([] ++ [rootA]) 10 false [] :=
  ⟨by decide,
    C9_unreadable_directory_is_local fs1 ['q'] [] [rootA] rootB 10 false [] (by decide)⟩

/-- C10: the recursive walk never descends into a hidden directory: every
returned record's path extends a root by non-hidden intermediate components
only (the record itself may be hidden, when `includeHidden` is set, but
nothing strictly inside a hidden directory is ever returned). -/
theorem C10_never_descends_into_hidden (fs : FS) (query : Str) (searchPaths : List FsPath)
    (maxResults : Nat) (includeHidden : Bool) (excludePatterns : List Str) (it : FileItem)
    (h : it ∈ searchFileSystem fs query searchPaths maxResults includeHidden excludePatterns) :
    ∃ r ∈ searchPaths, ∃ comps final, it.path = r ++ comps ++ [final] ∧
      ∀ c ∈ comps, startsWithDot c = false := by
  obtain ⟨r, hr, comps, final, hpath, _, _, hcomps, _⟩ :=
    searchFileSystem_spec fs query searchPaths maxResults includeHidden excludePatterns it h
  exact ⟨r, hr, comps, final, hpath, hcomps⟩

/-- Witness for C10 at `fsH`: with `includeHidden = true` the hidden
directory `.h` is itself returned as the only record — its matching child
`h` is not — and the theorem applies to it. -/
theorem C10_witness :
    searchFileSystem fsH ['h'] [rootA] 10 true [] = [itemH] ∧
      itemH ∈ searchFileSystem fsH ['h'] [rootA] 10 true [] ∧
      ∃ r ∈ [rootA], ∃ comps final, itemH.path = r ++ comps ++ [final] ∧
        ∀ c ∈ comps, startsWithDot c = false :=
  ⟨by decide, by decide,
    C10_never_descends_into_hidden fsH ['h'] [rootA] 10 true [] itemH (by decide)⟩

